import Mathlib

/-!
Verification of the mikrodb write-ahead-log key-value store.

The development shallowly embeds the program:
* `LogRecord`, `Database.crash_recover` — from `src/database.rs` and `src/log.rs`;
* the byte-level log framing (`WALManager.write_log` / `read_log`) — from `src/log.rs`;
* the transaction engine (`Transaction.create` / `read` / `update` / `delete` /
  `commit` and the drop-as-abort teardown) — from `src/database.rs`;
* the order of file-system effects performed by `Database::new` — as an event trace.
-/

/-- Log record of the write-ahead log: the six variants of `LogRecord` in
`src/log.rs` (`Create`, `Read`, `Update`, `Delete`, `Commit`, `Abort`). -/
inductive LogRecord (K V : Type) where
  | create (key : K) (value : V)
  | read (key : K)
  | update (key : K) (value : V)
  | delete (key : K)
  | commit
  | abort
deriving DecidableEq

/-- The in-memory dataset: the `BTreeMap<K, V>` of `Database`, modelled
extensionally as its lookup function. -/
abbrev Dataset (K V : Type) := K → Option V

namespace Database

/-- One step of the redo loop of `Database::crash_recover`
(`src/database.rs` lines 113–126): `Create`/`Update` insert-or-overwrite their
key, `Delete` removes it, every other record is skipped. -/
def applyRecord {K V : Type} [DecidableEq K] (data : Dataset K V) :
    LogRecord K V → Dataset K V
  | .create key value => fun k => if k = key then some value else data k
  | .update key value => fun k => if k = key then some value else data k
  | .delete key => fun k => if k = key then none else data k
  | _ => data

/-- First pass of `Database::crash_recover` (`src/database.rs` lines 96–112):
walk the records in file order keeping a pending `queue`; a `Commit` drains the
queue into the `committed` list, an `Abort` discards the queue, anything else is
queued.  The value returned is the final `committed` list (the pending queue at
end-of-stream is dropped). -/
def collectCommitted {K V : Type} :
    List (LogRecord K V) → List (LogRecord K V) → List (LogRecord K V) →
      List (LogRecord K V)
  | [], _queue, committed => committed
  | .commit :: rest, queue, committed => collectCommitted rest [] (committed ++ queue)
  | .abort :: rest, _queue, committed => collectCommitted rest [] committed
  | r :: rest, queue, committed => collectCommitted rest (queue ++ [r]) committed

/-- `Database::crash_recover` (`src/database.rs` lines 94–128) as a pure
function of the initial dataset and the record sequence returned by
`read_log`: collect the committed records, then apply them in order. -/
def crash_recover {K V : Type} [DecidableEq K] (data : Dataset K V)
    (logs : List (LogRecord K V)) : Dataset K V :=
  (collectCommitted logs [] []).foldl applyRecord data

end Database

/-- Spec-side helper (§4.2 of the spec): does the record sequence that follows a
given record contain a `Commit` boundary before any intervening `Abort`? -/
def committedNext {K V : Type} : List (LogRecord K V) → Bool
  | [] => false
  | .commit :: _ => true
  | .abort :: _ => false
  | _ :: rest => committedNext rest

/-- Spec-side helper: is a record one of the three mutations
(`Create`, `Update`, `Delete`)? -/
def isMutation {K V : Type} : LogRecord K V → Bool
  | .create _ _ => true
  | .update _ _ => true
  | .delete _ => true
  | _ => false

/-- Spec-side selection (§4.2): keep, in file order, exactly the mutation
records that are followed by a `Commit` boundary before any intervening
`Abort`; mutations of units ended by `Abort` and mutations still pending at
end-of-stream are discarded. -/
def specKept {K V : Type} : List (LogRecord K V) → List (LogRecord K V)
  | [] => []
  | r :: rest => (if isMutation r && committedNext rest then [r] else []) ++ specKept rest

/-- Spec-side application of one record (§4.2): `Create`/`Update`
insert-or-overwrite, `Delete` removes, `Read` is skipped. -/
def applyMutation {K V : Type} [DecidableEq K] (data : Dataset K V) :
    LogRecord K V → Dataset K V
  | .create key value => fun k => if k = key then some value else data k
  | .update key value => fun k => if k = key then some value else data k
  | .delete key => fun k => if k = key then none else data k
  | _ => data

/-- Spec-side recovery (§4.2): apply, in file order, exactly the committed
mutation records to the initial dataset. -/
def specReplay {K V : Type} [DecidableEq K] (data : Dataset K V)
    (logs : List (LogRecord K V)) : Dataset K V :=
  (specKept logs).foldl applyMutation data

/-- Key witness of the last effect a record sequence has on one key: walking a
record list, `some (some v)` means the last record touching `k` inserts `v`,
`some none` means it removes `k`, `none` means no record touches `k`. -/
def writeOf {K V : Type} [DecidableEq K] (k : K) : LogRecord K V → Option (Option V)
  | .create key value => if k = key then some (some value) else none
  | .update key value => if k = key then some (some value) else none
  | .delete key => if k = key then some none else none
  | _ => none

/-- The last write (insert or remove) a record list performs on key `k`,
scanning so that later records win. -/
def lastWrite {K V : Type} [DecidableEq K] (k : K) :
    List (LogRecord K V) → Option (Option V)
  | [] => none
  | r :: rest =>
    match lastWrite k rest with
    | some o => some o
    | none => writeOf k r

/-- The error taxonomy of `src/error.rs` (`DatabaseError`); payloads carried by
the Rust variants are omitted. -/
inductive DatabaseError where
  | transactionLogError
  | ioError
  | persistError
  | jsonError
  | numberFormatError
  | invalidLogError
  | keyDuplicationError
  | keyNotFoundError
deriving DecidableEq

/-- The state a `Database<K, V>` owns, at record level: the in-memory dataset
(`data`), the decoded contents of the data file at `datapath` (`image` — the
checkpoint image; the JSON encode/decode round-trip of the file body is
abstracted away), and the contents of the log file as the sequence of records
appended to it, each paired with the `sync` flag of its `write_log` call. -/
structure DbState (K V : Type) where
  data : Dataset K V
  image : Dataset K V
  log : List (LogRecord K V × Bool)

/-- A live `Transaction<'tx, K, V>` (`src/database.rs` lines 27–34): the
exclusively borrowed database plus the writeset `BTreeMap<K, Option<V>>`,
modelled as a lookup function into the entry set (`some (some v)` an
insert/update entry, `some none` a tombstone entry, `none` no entry). -/
structure Transaction (K V : Type) where
  database : DbState K V
  writeset : K → Option (Option V)

/-- `Transaction::get_content` (`src/database.rs` lines 158–163): consult the
writeset first, the dataset second. -/
def Transaction.get_content {K V : Type} (t : Transaction K V) (key : K) : Option V :=
  match t.writeset key with
  | none => t.database.data key
  | some v => v

/-- `Transaction::create` (`src/database.rs` lines 166–179): fail if the key is
visible, otherwise append a `Create` record (sync=false) and stage the value. -/
def Transaction.create {K V : Type} [DecidableEq K] (t : Transaction K V)
    (key : K) (value : V) : Except DatabaseError (Transaction K V) :=
  if (t.get_content key).isSome then .error .keyDuplicationError
  else .ok
    { database := { t.database with
        log := t.database.log ++ [(.create key value, false)] }
      writeset := fun k => if k = key then some (some value) else t.writeset k }

/-- `Transaction::read` (`src/database.rs` lines 182–190): append a `Read`
record (sync=false), then look the key up; note the append happens before the
lookup, so it occurs on the `KeyNotFoundError` path too. -/
def Transaction.read {K V : Type} (t : Transaction K V) (key : K) :
    Except DatabaseError V × Transaction K V :=
  let t' : Transaction K V :=
    { t with database := { t.database with
        log := t.database.log ++ [(.read key, false)] } }
  (match t'.get_content key with
   | some v => .ok v
   | none => .error .keyNotFoundError, t')

/-- `Transaction::update` (`src/database.rs` lines 193–206): fail if the key is
not visible, otherwise append an `Update` record (sync=false) and stage the
value. -/
def Transaction.update {K V : Type} [DecidableEq K] (t : Transaction K V)
    (key : K) (value : V) : Except DatabaseError (Transaction K V) :=
  if (t.get_content key).isNone then .error .keyNotFoundError
  else .ok
    { database := { t.database with
        log := t.database.log ++ [(.update key value, false)] }
      writeset := fun k => if k = key then some (some value) else t.writeset k }

/-- `Transaction::delete` (`src/database.rs` lines 209–219): fail if the key is
not visible, otherwise append a `Delete` record (sync=false) and then execute
`self.writeset.remove(&key)` — the writeset entry for the key is removed
(set to `none` in the entry map), not replaced by a `some none` tombstone. -/
def Transaction.delete {K V : Type} [DecidableEq K] (t : Transaction K V)
    (key : K) : Except DatabaseError (Transaction K V) :=
  if (t.get_content key).isNone then .error .keyNotFoundError
  else .ok
    { database := { t.database with
        log := t.database.log ++ [(.delete key, false)] }
      writeset := fun k => if k = key then none else t.writeset k }

/-- `Transaction::commit` (`src/database.rs` lines 222–237): append a `Commit`
record with sync=true, merge the writeset into the dataset (`Some` entries
insert, `None` entries remove), and `mem::forget` the handle so the
abort-on-drop path never runs. -/
def Transaction.commit {K V : Type} (t : Transaction K V) : DbState K V :=
  { data := fun k =>
      match t.writeset k with
      | some none => none
      | some (some v) => some v
      | none => t.database.data k
    image := t.database.image
    log := t.database.log ++ [(.commit, true)] }

/-- `impl Drop for Transaction` (`src/database.rs` lines 246–258): a handle
dropped without a successful commit appends an `Abort` record with sync=true;
the dataset is untouched and the writeset is discarded with the handle. -/
def Transaction.drop {K V : Type} (t : Transaction K V) : DbState K V :=
  { t.database with log := t.database.log ++ [(.abort, true)] }

/-- `Transaction::abort` (`src/database.rs` lines 240–243): the body does
nothing; consuming the handle runs `Drop`, which appends the `Abort`. -/
def Transaction.abort {K V : Type} (t : Transaction K V) : DbState K V :=
  Transaction.drop t

/-- Teardown of a transaction whose `commit` failed at the
`write_log(Commit, sync=true)` call (`src/database.rs` line 224): the failed
append leaves no durable `Commit` record (a torn frame is invisible to
recovery, so it is modelled as appending nothing), the `?` operator skips the
merge, and dropping the handle appends the `Abort`. -/
def Transaction.commit_fail {K V : Type} (t : Transaction K V) : DbState K V :=
  Transaction.drop t

/-- `Database::begin_transaction` (`src/database.rs` lines 131–136): a fresh
handle with an empty writeset. -/
def Database.begin_transaction {K V : Type} (s : DbState K V) : Transaction K V :=
  { database := s, writeset := fun _ => none }

/-- `Database::exec_checkpointing` (`src/database.rs` lines 78–91): rewrite the
data file with the serialized dataset, sync it, and clear the log. -/
def Database.exec_checkpointing {K V : Type} (s : DbState K V) : DbState K V :=
  { s with image := s.data, log := [] }

/-- The tail of `Database::new` (`src/database.rs` lines 55–64) once the
initial dataset has been decoded: crash-recover against the log records, write
a fresh checkpoint image, and clear the log. -/
def Database.open_core {K V : Type} [DecidableEq K] (data0 : Dataset K V)
    (logs : List (LogRecord K V)) : DbState K V :=
  Database.exec_checkpointing
    { data := Database.crash_recover data0 logs
      image := data0
      log := [] }

/-- Is a log record the `Abort` boundary? -/
def isAbortRec {K V : Type} : LogRecord K V → Bool
  | .abort => true
  | _ => false

/-- Concrete pre-state for exercising `Transaction::delete`: the dataset holds
the single pair `1 ↦ 10` (mirrored in the checkpoint image), the log is empty
and the writeset of the live transaction is empty. -/
def c2tx : Transaction Nat Nat :=
  { database :=
      { data := fun k => if k = 1 then some 10 else none
        image := fun k => if k = 1 then some 10 else none
        log := [] }
    writeset := fun _ => none }

/-- File-system effects performed during `Database::new`, in order of
occurrence: opening the log, reading the data file, reading the log entries,
truncating the log, and truncating / writing / syncing the data file. -/
inductive Event where
  | openLog
  | readDataFile
  | readEntries
  | clearLog
  | truncateData
  | writeData
  | syncData
deriving DecidableEq

/-- The file-system effects of `WALManager::read_log` (`src/log.rs` lines
96–108): read entries until the first failure, then `self.clear()` — the log
is truncated as a side effect of reading. -/
def WALManager.read_log_events : List Event := [.readEntries, .clearLog]

/-- The file-system effects of `Database::exec_checkpointing`
(`src/database.rs` lines 78–91): open the data file truncated, write the
serialized dataset, `sync_all`, then `wal.clear()`. -/
def Database.exec_checkpointing_events : List Event :=
  [.truncateData, .writeData, .syncData, .clearLog]

/-- The file-system effects of `Database::new` (`src/database.rs` lines
48–65): construct the `WALManager` (open the log), read the data file, run
`crash_recover` (whose `read_log` reads the entries and clears the log), run
`exec_checkpointing`, then `wal.clear()` once more. -/
def Database.new_events : List Event :=
  [.openLog, .readDataFile] ++ WALManager.read_log_events ++
    Database.exec_checkpointing_events ++ [.clearLog]

/-- The ordering property claimed of the open sequence: the log is never
truncated before the new checkpoint image has been written and forced to
stable storage, i.e. every `clearLog` event is preceded by a `syncData`
event. -/
def logClearedOnlyAfterSync (tr : List Event) : Prop :=
  ∀ i : Fin tr.length, tr.get i = .clearLog →
    ∃ j : Fin tr.length, j.val < i.val ∧ tr.get j = .syncData

/-- The serialized body of a record.  Stands in for the `serde_json` body
encoding of `LogRecord` used by `write_log`: an injective, self-describing
tagged encoding over the byte alphabet (the spec, §6, accepts any
self-describing tagged serialization for record bodies). -/
def WALManager.encRecord : LogRecord Nat Nat → List Nat
  | .create key value => [0, key, value]
  | .read key => [1, key]
  | .update key value => [2, key, value]
  | .delete key => [3, key]
  | .commit => [4]
  | .abort => [5]

/-- Decoding of a record body, the inverse of `WALManager.encRecord`; `none`
on any body that is not a well-formed encoding. -/
def WALManager.decRecord : List Nat → Option (LogRecord Nat Nat)
  | [0, key, value] => some (.create key value)
  | [1, key] => some (.read key)
  | [2, key, value] => some (.update key value)
  | [3, key] => some (.delete key)
  | [4] => some .commit
  | [5] => some .abort
  | _ => none

/-- Little-endian base-256 digits of `n`, least significant first, `k` bytes. -/
def leEncodeAux : Nat → Nat → List Nat
  | 0, _ => []
  | k + 1, n => n % 256 :: leEncodeAux k (n / 256)

/-- The `byteorder` little-endian `u64` encoding used for the length field of
a frame: 8 bytes, least significant first. -/
def leEncode (n : Nat) : List Nat := leEncodeAux 8 n

/-- Little-endian base-256 value of a byte list (the `read_u64` decoding). -/
def leDecode : List Nat → Nat
  | [] => 0
  | b :: rest => b + 256 * leDecode rest

/-- The frame `WALManager::write_log` (`src/log.rs` lines 66–90) writes for a
record: `SHA-256(body) || u64_le(len(body)) || body`.  The SHA-256 digest
function is abstracted as the parameter `hash`; the theorems assume only that
it produces 32-byte digests. -/
def WALManager.frameBytes (hash : List Nat → List Nat)
    (record : LogRecord Nat Nat) : List Nat :=
  hash (WALManager.encRecord record) ++
    leEncode (WALManager.encRecord record).length ++ WALManager.encRecord record

/-- `WALManager::write_log`: append the frame of the record to the log file
contents; the `sync` flag only forces an fsync and does not change the bytes
written. -/
def WALManager.write_log (hash : List Nat → List Nat) (file : List Nat)
    (record : LogRecord Nat Nat) (_sync : Bool) : List Nat :=
  file ++ WALManager.frameBytes hash record

/-- `WALManager::read_log_entry` (`src/log.rs` lines 111–138) over the unread
suffix of the log file: read 32 bytes of stored hash, 8 bytes of little-endian
length, and that many bytes of body; fail (`none`) on a short read, recompute
the hash of the body and fail on a mismatch, fail if the body does not decode;
otherwise return the record and the remaining bytes. -/
def WALManager.read_log_entry (hash : List Nat → List Nat) (bytes : List Nat) :
    Option (LogRecord Nat Nat × List Nat) :=
  if bytes.length < 32 then none
  else if (bytes.drop 32).length < 8 then none
  else if ((bytes.drop 32).drop 8).length < leDecode ((bytes.drop 32).take 8) then none
  else if bytes.take 32 =
      hash (((bytes.drop 32).drop 8).take (leDecode ((bytes.drop 32).take 8))) then
    match WALManager.decRecord
        (((bytes.drop 32).drop 8).take (leDecode ((bytes.drop 32).take 8))) with
    | some r => some (r, ((bytes.drop 32).drop 8).drop (leDecode ((bytes.drop 32).take 8)))
    | none => none
  else none

/-- The `while let Ok(val)` loop of `WALManager::read_log`, with explicit
fuel: collect records until the first entry that fails to read. -/
def WALManager.read_log_loop (hash : List Nat → List Nat) :
    Nat → List Nat → List (LogRecord Nat Nat)
  | 0, _ => []
  | fuel + 1, bytes =>
    match WALManager.read_log_entry hash bytes with
    | none => []
    | some (r, rest) => r :: WALManager.read_log_loop hash fuel rest

/-- `WALManager::read_log` (`src/log.rs` lines 96–108) on the log-file
contents: read entries until the first failure and return them as a successful
result.  Every successful entry consumes at least 40 bytes, so `length + 1`
units of fuel never run out.  (The side effect of clearing the file is covered
by the event-trace model `WALManager.read_log_events`.) -/
def WALManager.read_log (hash : List Nat → List Nat) (bytes : List Nat) :
    List (LogRecord Nat Nat) :=
  WALManager.read_log_loop hash (bytes.length + 1) bytes

/-- Log-file contents obtained by appending the frame of each record in turn. -/
def WALManager.logFileOf (hash : List Nat → List Nat) :
    List (LogRecord Nat Nat) → List Nat
  | [] => []
  | r :: rs => WALManager.frameBytes hash r ++ WALManager.logFileOf hash rs

/-- A concrete 32-byte digest function used to instantiate the abstract hash
in witnesses: pad with zeros and truncate to 32 bytes. -/
def hashW (b : List Nat) : List Nat := (b ++ List.replicate 32 0).take 32

/-- Drop leading JSON whitespace characters. -/
def skipWs : List Char → List Char
  | [] => []
  | c :: rest =>
    if c = ' ' ∨ c = '\n' ∨ c = '\t' ∨ c = '\r' then skipWs rest else c :: rest

/-- Split a character list into its leading run of decimal digits and the
remainder. -/
def takeDigits : List Char → List Char × List Char
  | [] => ([], [])
  | c :: rest =>
    if c.isDigit then
      let p := takeDigits rest
      (c :: p.1, p.2)
    else ([], c :: rest)

/-- Value of a list of decimal digit characters. -/
def digitsToNat (ds : List Char) : Nat :=
  ds.foldl (fun acc c => acc * 10 + (c.toNat - 48)) 0

/-- Parse a nonempty run of decimal digits as a number. -/
def parseNat (cs : List Char) : Option (Nat × List Char) :=
  match takeDigits cs with
  | ([], _) => none
  | (ds, rest) => some (digitsToNat ds, rest)

/-- Expect one specific character. -/
def expectChar (c : Char) : List Char → Option (List Char)
  | [] => none
  | c' :: rest => if c' = c then some rest else none

/-- Parse a JSON object key of the shape `"digits"` (serde_json serializes
integer map keys as strings). -/
def parseKeyQuoted (cs : List Char) : Option (Nat × List Char) := do
  let cs1 ← expectChar '"' cs
  let (k, cs2) ← parseNat cs1
  let cs3 ← expectChar '"' cs2
  pure (k, cs3)

/-- Parse one or more comma-separated `"key":value` pairs (fuelled). -/
def parsePairs : Nat → List Char → Option (List (Nat × Nat) × List Char)
  | 0, _ => none
  | fuel + 1, cs => do
    let (k, cs1) ← parseKeyQuoted (skipWs cs)
    let cs2 ← expectChar ':' (skipWs cs1)
    let (v, cs3) ← parseNat (skipWs cs2)
    match skipWs cs3 with
    | ',' :: rest => do
      let (ps, r) ← parsePairs fuel rest
      pure ((k, v) :: ps, r)
    | other => pure ([(k, v)], other)

/-- Models `serde_json::from_str::<BTreeMap<_, _>>` for maps with unsigned
integer keys and values, as used for the data file: a JSON object
`\x7b"key":value,...\x7d` with string-encoded numeric keys and numeric
values, surrounding whitespace tolerated, the whole input consumed.  An input
holding no JSON value at all — in particular the empty string — fails, as
`serde_json` fails with an end-of-input syntax error. -/
def jsonMapDecode (s : String) : Option (List (Nat × Nat)) :=
  match skipWs s.toList with
  | '\x7b' :: rest =>
    match skipWs rest with
    | '\x7d' :: tail => if (skipWs tail).isEmpty then some [] else none
    | _ => do
      let (ps, r1) ← parsePairs (rest.length + 1) rest
      let r2 ← expectChar '\x7d' (skipWs r1)
      if (skipWs r2).isEmpty then pure ps else none
  | _ => none

/-- The `BTreeMap` collected from the decoded pairs (later duplicates
overwrite, as in serde_json map deserialization). -/
def mapOfPairs (ps : List (Nat × Nat)) : Dataset Nat Nat :=
  ps.foldl (fun m kv => fun k => if k = kv.1 then some kv.2 else m k)
    (fun _ => none)

/-- `Database::new` (`src/database.rs` lines 48–65):
`std::fs::read_to_string(datapath)` is modelled by `content` (`none` when the
read fails, e.g. because the file is absent; `some s` with the file contents
otherwise).  A successful read is decoded with `serde_json::from_str`; a
decode failure propagates through `?` as the JSON error.  Then
`crash_recover` runs against the records `read_log` returns (`logs`), a fresh
checkpoint is written, and the log is cleared (`Database.open_core`). -/
def Database.new (content : Option String) (logs : List (LogRecord Nat Nat)) :
    Except DatabaseError (DbState Nat Nat) :=
  match content with
  | none => .ok (Database.open_core (fun _ => none) logs)
  | some s =>
    match jsonMapDecode s with
    | none => .error .jsonError
    | some ps => .ok (Database.open_core (mapOfPairs ps) logs)

/-- Execution exercising the quiescent-state invariant: open a database over a
checkpoint file containing `\x7b"1":10\x7d` and an empty log, run one
transaction that deletes key 1 and commits, then pair the in-memory dataset at
key 1 with the value at key 1 of the dataset obtained by loading the
checkpoint image and replaying the log. -/
def c3run : Except DatabaseError (Option Nat × Option Nat) :=
  (Database.new (some "\x7b\"1\":10\x7d") []).bind (fun db =>
    (Transaction.delete (Database.begin_transaction db) 1).map (fun t =>
      ((Transaction.commit t).data 1,
        Database.crash_recover (Transaction.commit t).image
          ((Transaction.commit t).log.map Prod.fst) 1)))

section CrashRecoverLemmas

variable {K V : Type}

@[simp] theorem applyRecord_create [DecidableEq K] (d : Dataset K V) (key : K) (value : V) :
    Database.applyRecord d (.create key value) = fun k => if k = key then some value else d k := rfl

@[simp] theorem applyRecord_update [DecidableEq K] (d : Dataset K V) (key : K) (value : V) :
    Database.applyRecord d (.update key value) = fun k => if k = key then some value else d k := rfl

@[simp] theorem applyRecord_delete [DecidableEq K] (d : Dataset K V) (key : K) :
    Database.applyRecord d (.delete key) = fun k => if k = key then none else d k := rfl

@[simp] theorem applyRecord_read [DecidableEq K] (d : Dataset K V) (key : K) :
    Database.applyRecord d (.read key) = d := rfl

@[simp] theorem applyRecord_commit [DecidableEq K] (d : Dataset K V) :
    Database.applyRecord d (.commit : LogRecord K V) = d := rfl

@[simp] theorem applyRecord_abort [DecidableEq K] (d : Dataset K V) :
    Database.applyRecord d (.abort : LogRecord K V) = d := rfl

@[simp] theorem collectCommitted_nil (q c : List (LogRecord K V)) :
    Database.collectCommitted [] q c = c := rfl

@[simp] theorem collectCommitted_commit (rest q c : List (LogRecord K V)) :
    Database.collectCommitted (.commit :: rest) q c =
      Database.collectCommitted rest [] (c ++ q) := rfl

@[simp] theorem collectCommitted_abort (rest q c : List (LogRecord K V)) :
    Database.collectCommitted (.abort :: rest) q c =
      Database.collectCommitted rest [] c := rfl

@[simp] theorem collectCommitted_create (key : K) (value : V) (rest q c : List (LogRecord K V)) :
    Database.collectCommitted (.create key value :: rest) q c =
      Database.collectCommitted rest (q ++ [.create key value]) c := rfl

@[simp] theorem collectCommitted_read (key : K) (rest q c : List (LogRecord K V)) :
    Database.collectCommitted (.read key :: rest) q c =
      Database.collectCommitted rest (q ++ [.read key]) c := rfl

@[simp] theorem collectCommitted_update (key : K) (value : V) (rest q c : List (LogRecord K V)) :
    Database.collectCommitted (.update key value :: rest) q c =
      Database.collectCommitted rest (q ++ [.update key value]) c := rfl

@[simp] theorem collectCommitted_delete (key : K) (rest q c : List (LogRecord K V)) :
    Database.collectCommitted (.delete key :: rest) q c =
      Database.collectCommitted rest (q ++ [.delete key]) c := rfl

@[simp] theorem committedNext_nil : committedNext ([] : List (LogRecord K V)) = false := rfl

@[simp] theorem committedNext_commit (rest : List (LogRecord K V)) :
    committedNext (.commit :: rest) = true := rfl

@[simp] theorem committedNext_abort (rest : List (LogRecord K V)) :
    committedNext (.abort :: rest) = false := rfl

@[simp] theorem committedNext_create (key : K) (value : V) (rest : List (LogRecord K V)) :
    committedNext (.create key value :: rest) = committedNext rest := rfl

@[simp] theorem committedNext_read (key : K) (rest : List (LogRecord K V)) :
    committedNext (.read key :: rest) = committedNext rest := rfl

@[simp] theorem committedNext_update (key : K) (value : V) (rest : List (LogRecord K V)) :
    committedNext (.update key value :: rest) = committedNext rest := rfl

@[simp] theorem committedNext_delete (key : K) (rest : List (LogRecord K V)) :
    committedNext (.delete key :: rest) = committedNext rest := rfl

@[simp] theorem specKept_nil : specKept ([] : List (LogRecord K V)) = [] := rfl

@[simp] theorem specKept_cons (r : LogRecord K V) (rest : List (LogRecord K V)) :
    specKept (r :: rest) =
      (if isMutation r && committedNext rest then [r] else []) ++ specKept rest := rfl

/-- The first pass of `crash_recover` with arbitrary accumulators, expressed by
the fate of the pending queue: the queued records survive exactly when a
`Commit` arrives before any `Abort`. -/
theorem collectCommitted_eq (logs : List (LogRecord K V)) :
    ∀ q c, Database.collectCommitted logs q c =
      c ++ (if committedNext logs then q else []) ++ Database.collectCommitted logs [] [] := by
  induction logs with
  | nil => intro q c; simp
  | cons r rest ih =>
    intro q c
    cases r
    case commit =>
      rw [collectCommitted_commit, ih [] (c ++ q), collectCommitted_commit,
        ih [] ([] ++ [])]
      simp [List.append_assoc]
    case abort =>
      rw [collectCommitted_abort, ih [] c, collectCommitted_abort, ih [] []]
      simp
    case create key value =>
      rw [collectCommitted_create, ih (q ++ [LogRecord.create key value]) c,
        collectCommitted_create, ih ([] ++ [LogRecord.create key value]) []]
      cases hc : committedNext rest <;> simp [hc, List.append_assoc]
    case read key =>
      rw [collectCommitted_read, ih (q ++ [LogRecord.read key]) c,
        collectCommitted_read, ih ([] ++ [LogRecord.read key]) []]
      cases hc : committedNext rest <;> simp [hc, List.append_assoc]
    case update key value =>
      rw [collectCommitted_update, ih (q ++ [LogRecord.update key value]) c,
        collectCommitted_update, ih ([] ++ [LogRecord.update key value]) []]
      cases hc : committedNext rest <;> simp [hc, List.append_assoc]
    case delete key =>
      rw [collectCommitted_delete, ih (q ++ [LogRecord.delete key]) c,
        collectCommitted_delete, ih ([] ++ [LogRecord.delete key]) []]
      cases hc : committedNext rest <;> simp [hc, List.append_assoc]

/-- Applying the committed list produced by the queue-draining pass is the same
as applying the spec-side selection of committed mutations: the only records on
which the two lists differ are committed `Read` records, which do not change
the dataset. -/
theorem foldl_applyRecord_collect [DecidableEq K] (logs : List (LogRecord K V)) :
    ∀ d : Dataset K V,
      (Database.collectCommitted logs [] []).foldl Database.applyRecord d =
        (specKept logs).foldl Database.applyRecord d := by
  induction logs with
  | nil => intro d; rfl
  | cons r rest ih =>
    intro d
    cases r
    case commit =>
      rw [collectCommitted_commit]
      simp only [List.append_nil, specKept_cons]
      rw [ih d]
      simp [isMutation]
    case abort =>
      rw [collectCommitted_abort]
      rw [ih d]
      simp [isMutation]
    case create key value =>
      rw [collectCommitted_create, List.nil_append,
        collectCommitted_eq rest [LogRecord.create key value] []]
      cases hc : committedNext rest
      · simp only [hc, if_neg Bool.false_ne_true, List.nil_append, specKept_cons,
          isMutation, Bool.and_false, List.foldl_append]
        simpa using ih d
      · simp only [hc, if_pos rfl, List.nil_append, specKept_cons, isMutation,
          Bool.and_true, Bool.true_and, if_pos rfl, List.foldl_append]
        exact ih _
    case read key =>
      rw [collectCommitted_read, List.nil_append,
        collectCommitted_eq rest [LogRecord.read key] []]
      cases hc : committedNext rest
      · simp only [hc, if_neg Bool.false_ne_true, List.nil_append, specKept_cons,
          isMutation, Bool.and_false, Bool.false_and, List.foldl_append]
        simpa using ih d
      · simp only [hc, if_pos rfl, List.nil_append, specKept_cons, isMutation,
          Bool.false_and, List.foldl_append, List.foldl_cons, List.foldl_nil,
          applyRecord_read]
        simpa using ih d
    case update key value =>
      rw [collectCommitted_update, List.nil_append,
        collectCommitted_eq rest [LogRecord.update key value] []]
      cases hc : committedNext rest
      · simp only [hc, if_neg Bool.false_ne_true, List.nil_append, specKept_cons,
          isMutation, Bool.and_false, List.foldl_append]
        simpa using ih d
      · simp only [hc, if_pos rfl, List.nil_append, specKept_cons, isMutation,
          Bool.and_true, Bool.true_and, if_pos rfl, List.foldl_append]
        exact ih _
    case delete key =>
      rw [collectCommitted_delete, List.nil_append,
        collectCommitted_eq rest [LogRecord.delete key] []]
      cases hc : committedNext rest
      · simp only [hc, if_neg Bool.false_ne_true, List.nil_append, specKept_cons,
          isMutation, Bool.and_false, List.foldl_append]
        simpa using ih d
      · simp only [hc, if_pos rfl, List.nil_append, specKept_cons, isMutation,
          Bool.and_true, Bool.true_and, if_pos rfl, List.foldl_append]
        exact ih _

end CrashRecoverLemmas

/-- C1: for every log-record sequence read at open, `crash_recover` updates the
initial dataset by applying, in file order, exactly the mutation records that
are followed by a `Commit` boundary before any intervening `Abort`; `Read`
records never change the result, and mutations of aborted or still-pending
units have no effect. -/
theorem crash_recover_matches_spec_replay {K V : Type} [DecidableEq K]
    (data : Dataset K V) (logs : List (LogRecord K V)) :
    Database.crash_recover data logs = specReplay data logs := by
  unfold Database.crash_recover specReplay
  rw [foldl_applyRecord_collect]
  have h : (Database.applyRecord : Dataset K V → LogRecord K V → Dataset K V) =
      applyMutation := by
    funext d r
    cases r <;> rfl
  rw [h]

theorem applyRecord_apply_eq {K V : Type} [DecidableEq K] (d : Dataset K V)
    (r : LogRecord K V) (k : K) :
    Database.applyRecord d r k = (writeOf k r).getD (d k) := by
  cases r with
  | create key value => by_cases h : k = key <;> simp [writeOf, h]
  | update key value => by_cases h : k = key <;> simp [writeOf, h]
  | delete key => by_cases h : k = key <;> simp [writeOf, h]
  | read key => simp [writeOf]
  | commit => simp [writeOf]
  | abort => simp [writeOf]

theorem foldl_applyRecord_getD {K V : Type} [DecidableEq K]
    (l : List (LogRecord K V)) :
    ∀ (d : Dataset K V) (k : K),
      (l.foldl Database.applyRecord d) k = (lastWrite k l).getD (d k) := by
  induction l with
  | nil => intro d k; simp [lastWrite]
  | cons r rest ih =>
    intro d k
    rw [List.foldl_cons, ih, applyRecord_apply_eq]
    cases h : lastWrite k rest <;> simp [lastWrite, h]

/-- C9: recovery is idempotent — replaying the same record sequence twice over
a dataset yields the same dataset as replaying it once. -/
theorem crash_recover_idempotent {K V : Type} [DecidableEq K]
    (data : Dataset K V) (logs : List (LogRecord K V)) :
    Database.crash_recover (Database.crash_recover data logs) logs =
      Database.crash_recover data logs := by
  funext k
  unfold Database.crash_recover
  simp only [foldl_applyRecord_getD]
  cases h : lastWrite k (Database.collectCommitted logs [] []) <;> simp [h]

/-- C2 (failing-input evaluation): on the dataset `{1 ↦ 10}` with an empty
writeset, `delete 1` succeeds and appends the `Delete` record, but the
writeset entry for `1` is removed rather than set to a `None` tombstone, so
`1` is still visible inside the transaction (as `10`) and survives the commit
with its old value instead of being removed. -/
theorem delete_bug_eval :
    (Transaction.delete c2tx 1).map
      (fun t => (t.writeset 1, Transaction.get_content t 1,
        (Transaction.commit t).data 1, t.database.log.map Prod.fst)) =
      .ok (none, some 10, some 10, [LogRecord.delete 1]) := rfl

/-- C6: every terminating path that is not a successful commit — explicit
abort, dropped handle, failed commit — appends exactly one `Abort` record with
sync=true and leaves the in-memory dataset unchanged, while a successful
commit appends a `Commit` record and no `Abort`. -/
theorem teardown_appends_single_abort {K V : Type} (t : Transaction K V) :
    (Transaction.abort t).log = t.database.log ++ [(.abort, true)] ∧
    (Transaction.abort t).data = t.database.data ∧
    (Transaction.drop t).log = t.database.log ++ [(.abort, true)] ∧
    (Transaction.drop t).data = t.database.data ∧
    (Transaction.commit_fail t).log = t.database.log ++ [(.abort, true)] ∧
    (Transaction.commit_fail t).data = t.database.data ∧
    (Transaction.commit t).log = t.database.log ++ [(.commit, true)] ∧
    ((Transaction.commit t).log.filter fun e => isAbortRec e.1) =
      (t.database.log.filter fun e => isAbortRec e.1) := by
  refine ⟨rfl, rfl, rfl, rfl, rfl, rfl, rfl, ?_⟩
  have h : (Transaction.commit t).log = t.database.log ++ [(LogRecord.commit, true)] := rfl
  have h2 : isAbortRec (LogRecord.commit : LogRecord K V) = false := rfl
  rw [h, List.filter_append]
  simp [h2]

/-- C10: `Transaction::read` appends exactly one `Read` record (sync=false),
leaves the writeset and the in-memory dataset unchanged, and returns the
visible value or `KeyNotFoundError`; the record is appended on the error path
too. -/
theorem read_appends_record_and_preserves_state {K V : Type}
    (t : Transaction K V) (key : K) :
    (Transaction.read t key).2.database.log =
      t.database.log ++ [(.read key, false)] ∧
    (Transaction.read t key).2.writeset = t.writeset ∧
    (Transaction.read t key).2.database.data = t.database.data ∧
    (Transaction.read t key).1 =
      (match Transaction.get_content t key with
       | some v => Except.ok v
       | none => Except.error DatabaseError.keyNotFoundError) :=
  ⟨rfl, rfl, rfl, rfl⟩

/-- C4 (refutation of the claimed ordering): in the open sequence of
`Database::new`, the log is cleared (inside `read_log`) before the new
checkpoint image is written and synced, so the claimed step order does not
hold. -/
theorem open_clears_log_before_checkpoint_sync :
    ¬ logClearedOnlyAfterSync Database.new_events := by
  unfold logClearedOnlyAfterSync Database.new_events WALManager.read_log_events
    Database.exec_checkpointing_events
  decide

theorem leEncodeAux_length (k : Nat) : ∀ n, (leEncodeAux k n).length = k := by
  induction k with
  | zero => intro n; rfl
  | succ k ih => intro n; simp [leEncodeAux, ih]

theorem leEncode_length (n : Nat) : (leEncode n).length = 8 :=
  leEncodeAux_length 8 n

theorem leDecode_leEncodeAux (k : Nat) :
    ∀ n, leDecode (leEncodeAux k n) = n % 256 ^ k := by
  induction k with
  | zero => intro n; simp [leEncodeAux, leDecode, Nat.mod_one]
  | succ k ih =>
    intro n
    rw [leEncodeAux, leDecode, ih (n / 256), pow_succ, mul_comm (256 ^ k) 256,
      Nat.mod_mul]

theorem leDecode_leEncode (n : Nat) (h : n < 256 ^ 8) :
    leDecode (leEncode n) = n := by
  rw [leEncode, leDecode_leEncodeAux]
  exact Nat.mod_eq_of_lt h

theorem encRecord_length_le (r : LogRecord Nat Nat) :
    (WALManager.encRecord r).length ≤ 3 := by
  cases r <;> simp [WALManager.encRecord]

theorem decRecord_encRecord (r : LogRecord Nat Nat) :
    WALManager.decRecord (WALManager.encRecord r) = some r := by
  cases r <;> rfl

theorem read_log_entry_frame (hash : List Nat → List Nat)
    (hlen : ∀ b, (hash b).length = 32) (r : LogRecord Nat Nat) (rest : List Nat) :
    WALManager.read_log_entry hash (WALManager.frameBytes hash r ++ rest) =
      some (r, rest) := by
  have h32 : (hash (WALManager.encRecord r)).length = 32 := hlen _
  have hle8 : (leEncode (WALManager.encRecord r).length).length = 8 :=
    leEncode_length _
  have hdec : leDecode (leEncode (WALManager.encRecord r).length) =
      (WALManager.encRecord r).length :=
    leDecode_leEncode _ (lt_of_le_of_lt (encRecord_length_le r) (by norm_num))
  have e1 : WALManager.frameBytes hash r ++ rest =
      hash (WALManager.encRecord r) ++
        (leEncode (WALManager.encRecord r).length ++
          (WALManager.encRecord r ++ rest)) := by
    simp [WALManager.frameBytes, List.append_assoc]
  rw [e1]
  unfold WALManager.read_log_entry
  rw [List.drop_left' h32, List.take_left' h32, List.drop_left' hle8,
    List.take_left' hle8, hdec, List.take_left, List.drop_left]
  have hc1 : ¬ (hash (WALManager.encRecord r) ++
      (leEncode (WALManager.encRecord r).length ++
        (WALManager.encRecord r ++ rest))).length < 32 := by
    simp only [List.length_append, h32]
    omega
  have hc2 : ¬ (leEncode (WALManager.encRecord r).length ++
      (WALManager.encRecord r ++ rest)).length < 8 := by
    simp only [List.length_append, hle8]
    omega
  have hc3 : ¬ (WALManager.encRecord r ++ rest).length <
      (WALManager.encRecord r).length := by
    simp only [List.length_append]
    omega
  rw [if_neg hc1, if_neg hc2, if_neg hc3, if_pos rfl, decRecord_encRecord]

theorem read_log_entry_rest (hash : List Nat → List Nat) {bytes : List Nat}
    {r : LogRecord Nat Nat} {rest : List Nat}
    (h : WALManager.read_log_entry hash bytes = some (r, rest)) :
    rest.length + 40 ≤ bytes.length := by
  unfold WALManager.read_log_entry at h
  by_cases h1 : bytes.length < 32
  · rw [if_pos h1] at h
    exact Option.noConfusion h
  · rw [if_neg h1] at h
    by_cases h2 : (bytes.drop 32).length < 8
    · rw [if_pos h2] at h
      exact Option.noConfusion h
    · rw [if_neg h2] at h
      by_cases h3 : ((bytes.drop 32).drop 8).length <
          leDecode ((bytes.drop 32).take 8)
      · rw [if_pos h3] at h
        exact Option.noConfusion h
      · rw [if_neg h3] at h
        by_cases h4 : bytes.take 32 =
            hash (((bytes.drop 32).drop 8).take (leDecode ((bytes.drop 32).take 8)))
        · rw [if_pos h4] at h
          cases hdec : WALManager.decRecord
              (((bytes.drop 32).drop 8).take (leDecode ((bytes.drop 32).take 8))) with
          | none => rw [hdec] at h; simp at h
          | some r' =>
            rw [hdec] at h
            simp only [Option.some.injEq, Prod.mk.injEq] at h
            obtain ⟨-, h6⟩ := h
            subst h6
            simp only [List.length_drop] at h1 h2 h3 ⊢
            omega
        · rw [if_neg h4] at h
          simp at h

theorem read_log_loop_fuel (hash : List Nat → List Nat) :
    ∀ f₁ f₂ bytes, bytes.length < f₁ → bytes.length < f₂ →
      WALManager.read_log_loop hash f₁ bytes = WALManager.read_log_loop hash f₂ bytes := by
  intro f₁
  induction f₁ with
  | zero => intro f₂ bytes h1 h2; exact absurd h1 (by omega)
  | succ n ih =>
    intro f₂ bytes h1 h2
    cases f₂ with
    | zero => exact absurd h2 (by omega)
    | succ m =>
      cases he : WALManager.read_log_entry hash bytes with
      | none => simp [WALManager.read_log_loop, he]
      | some pr =>
        obtain ⟨r, rest⟩ := pr
        have hlt := read_log_entry_rest hash he
        simp only [WALManager.read_log_loop, he]
        exact congrArg (List.cons r) (ih m rest (by omega) (by omega))

theorem read_log_frames (hash : List Nat → List Nat)
    (hlen : ∀ b, (hash b).length = 32) :
    ∀ (records : List (LogRecord Nat Nat)) (garbage : List Nat),
      WALManager.read_log_entry hash garbage = none →
      WALManager.read_log hash (WALManager.logFileOf hash records ++ garbage) =
        records := by
  intro records
  induction records with
  | nil =>
    intro g hg
    simp only [WALManager.logFileOf, List.nil_append]
    simp [WALManager.read_log, WALManager.read_log_loop, hg]
  | cons r rs ih =>
    intro g hg
    have e1 : WALManager.logFileOf hash (r :: rs) ++ g =
        WALManager.frameBytes hash r ++ (WALManager.logFileOf hash rs ++ g) := by
      simp [WALManager.logFileOf, List.append_assoc]
    unfold WALManager.read_log
    rw [e1]
    have hfb : 40 ≤ (WALManager.frameBytes hash r).length := by
      simp only [WALManager.frameBytes, List.length_append, hlen, leEncode_length]
      omega
    have hstep := read_log_entry_frame hash hlen r (WALManager.logFileOf hash rs ++ g)
    have hone : WALManager.read_log_loop hash
        ((WALManager.frameBytes hash r ++ (WALManager.logFileOf hash rs ++ g)).length + 1)
        (WALManager.frameBytes hash r ++ (WALManager.logFileOf hash rs ++ g)) =
        r :: WALManager.read_log_loop hash
          ((WALManager.frameBytes hash r ++ (WALManager.logFileOf hash rs ++ g)).length)
          (WALManager.logFileOf hash rs ++ g) := by
      simp only [WALManager.read_log_loop, hstep]
    rw [hone, read_log_loop_fuel hash _
      ((WALManager.logFileOf hash rs ++ g).length + 1)
      (WALManager.logFileOf hash rs ++ g)
      (by simp only [List.length_append]; omega) (by omega)]
    exact congrArg (List.cons r) (ih g hg)

/-- C5: for every log-file content consisting of a sequence of valid frames
followed by trailing garbage that does not read back as a frame (short read,
hash mismatch or undecodable body), `read_log` returns, as a successful
result, exactly the records of the valid prefix. -/
theorem read_log_valid_prefix_of_garbage (hash : List Nat → List Nat)
    (records : List (LogRecord Nat Nat)) (garbage : List Nat)
    (hlen : ∀ b, (hash b).length = 32)
    (hbad : WALManager.read_log_entry hash garbage = none) :
    WALManager.read_log hash (WALManager.logFileOf hash records ++ garbage) =
      records :=
  read_log_frames hash hlen records garbage hbad

theorem hashW_length : ∀ b, (hashW b).length = 32 := by
  intro b
  simp only [hashW, List.length_take, List.length_append, List.length_replicate]
  omega

theorem read_log_valid_prefix_of_garbage_witness :
    WALManager.read_log hashW
        (WALManager.logFileOf hashW [LogRecord.create 1 2, LogRecord.commit] ++ [7]) =
      [LogRecord.create 1 2, LogRecord.commit] :=
  read_log_valid_prefix_of_garbage hashW [LogRecord.create 1 2, LogRecord.commit]
    [7] hashW_length (by decide)

/-- C8: appending any record `r` with sync=true to an empty log and reading
the log back yields exactly `[r]`. -/
theorem write_then_read_log_roundtrip (hash : List Nat → List Nat)
    (r : LogRecord Nat Nat) (hlen : ∀ b, (hash b).length = 32) :
    WALManager.read_log hash (WALManager.write_log hash [] r true) = [r] := by
  have h1 : WALManager.write_log hash [] r true =
      WALManager.logFileOf hash [r] ++ [] := by
    simp [WALManager.write_log, WALManager.logFileOf]
  rw [h1]
  exact read_log_frames hash hlen [r] []
    (by simp [WALManager.read_log_entry])

theorem write_then_read_log_roundtrip_witness :
    WALManager.read_log hashW
        (WALManager.write_log hashW [] (LogRecord.update 5 9) true) =
      [LogRecord.update 5 9] :=
  write_then_read_log_roundtrip hashW (LogRecord.update 5 9) hashW_length

/-- C7 (counterexample): opening with an existing data file of empty content
does not succeed with an empty dataset — decoding the empty string fails (as
`serde_json::from_str` fails with an end-of-input error) and `Database::new`
propagates the decode error. -/
theorem new_empty_content_errors :
    Database.new (some "") [] = .error DatabaseError.jsonError := rfl

/-- C7 (amended): `Database::new` starts from an empty initial dataset exactly
when reading the data file fails (e.g. the file is absent); when the file
exists its content — even empty — is decoded, content that does not decode (in
particular empty content) makes `new` fail with the decode error, and
decodable content becomes the initial dataset before recovery. -/
theorem new_initial_dataset_amended :
    (∀ logs : List (LogRecord Nat Nat),
      Database.new none logs = .ok (Database.open_core (fun _ => none) logs)) ∧
    (∀ logs : List (LogRecord Nat Nat),
      Database.new (some "") logs = .error DatabaseError.jsonError) ∧
    (∀ (s : String) (ps : List (Nat × Nat)) (logs : List (LogRecord Nat Nat)),
      jsonMapDecode s = some ps →
      Database.new (some s) logs = .ok (Database.open_core (mapOfPairs ps) logs)) := by
  refine ⟨fun logs => rfl, fun logs => rfl, fun s ps logs h => ?_⟩
  simp [Database.new, h]

/-- Witness for the amended C7 statement at concrete decodable content. -/
theorem new_initial_dataset_amended_witness :
    Database.new (some "\x7b\"3\":7\x7d") [] =
      .ok (Database.open_core (mapOfPairs [(3, 7)]) []) :=
  new_initial_dataset_amended.2.2 "\x7b\"3\":7\x7d" [(3, 7)] [] (by decide)

/-- C3 (failing execution): after opening over the checkpoint `\x7b"1":10\x7d`
with an empty log and committing a transaction that deletes key 1, the
in-memory dataset still maps 1 to 10, while loading the checkpoint image and
replaying the log removes key 1 — the quiescent-state invariant does not
hold. -/
theorem quiescent_invariant_violated : c3run = .ok (some 10, none) := rfl
